import Mathlib

/-!
# Verification of the InfluxDB file importer (`src/influxdb_file_importer.py`)

Shallow embedding of `InfluxDBFileImporter.import_files` and its helpers.

* Modification times (`st_mtime`) are modelled as `Nat`; the epoch
  (`datetime(1970, 1, 1)`) is `0`.
* A directory entry is a `FileEntry`: its name, whether `is_file()` holds,
  and its `stat().st_mtime` as `Option Nat` — `none` models the file
  vanishing between listing and stat (`FileNotFoundError` caught by
  `get_mtime`, which returns `None`).
* The JSON status file is a `Status`: an association list from source name
  to `Option Nat`; a key mapped to `none` models an entry `{}` without a
  `"last_mtime"` field, an absent key models an absent entry.
* Records and metadata are opaque type parameters `R` and `M`.
* The abstract methods `load_metadata` / `parse_file`, the directory
  listing, and the outcome of each remote batch write (after the client's
  internal retries) are supplied by an environment `Env`.
* `reactivex buffer_with_count(BATCH_SIZE)` is `chunkList BATCH_SIZE`;
  the `subscribe(on_next, on_error)` loop is `deliver`, which records a
  `formBatch` event per buffer emitted and a `writeCall` event per remote
  write attempted, and stops at the first failed write with the typed
  error (`InfluxDBFileImporterWriteError`, modelled as
  `RunError.influxWriteError`), exactly as `_on_write_error` re-raises.
* Python's `sorted(..., key=lambda tp: tp[1])` is the stable insertion
  sort `sortByMtime`, keyed on the mtime only.
-/

/-- A directory entry as seen by `Path.iterdir()`: its `name`, whether
`is_file()` is true, and its mtime (`none` when the file vanished before
`stat`, making `get_mtime` return `None`). -/
structure FileEntry where
  name : String
  isFile : Bool
  mtime : Option Nat
deriving DecidableEq, Repr

/-- `get_mtime`: returns the file's mtime, `None` if the file is not found
(the `FileNotFoundError` is caught, never propagated). -/
def get_mtime (f : FileEntry) : Option Nat :=
  f.mtime

/-- One entry of `files_cfg["data"]`: source name, subdirectory, optional
file-name pattern (`none` models an absent/empty pattern, i.e. match all;
`some p` models `re.fullmatch(pattern, name)` as the predicate `p`), and
the metadata description path. -/
structure SourceConfig where
  name : String
  subdir : String
  pattern : Option (String → Bool)
  metadataPath : String

/-- The persisted status table: JSON object keyed by source name, each
value an optional `last_mtime` (the `Option` is `none` for an entry
lacking the `"last_mtime"` key). -/
abbrev Status := List (String × Option Nat)

/-- The collaborators of `import_files`: the directory listing per subdir,
the two abstract methods `load_metadata` and `parse_file`, the outcome of
each remote batch write (indexed by source name and batch index; this is
the outcome after the InfluxDB client's own bounded retries), and the
`dry_run` flag. -/
structure Env (R M : Type) where
  listing : String → List FileEntry
  loadMetadata : String → String → Except Unit M
  parseFile : String → String → M → List R
  writeOk : String → Nat → Bool
  dryRun : Bool

/-- Observable events of a run. -/
inductive Event (R : Type) where
  | loadMeta (srcName : String)
  | formBatch (srcName : String) (idx : Nat) (batch : List R)
  | writeCall (srcName : String) (idx : Nat) (batch : List R)
deriving DecidableEq, Repr

/-- Errors that can abort a run: an exception propagating out of
`load_metadata`, or the typed `InfluxDBFileImporterWriteError` raised by
`_on_write_error` when a batch write fails after retries. -/
inductive RunError where
  | metadataError (srcName : String)
  | influxWriteError (srcName : String)
deriving DecidableEq, Repr

/-- `BATCH_SIZE` class attribute. -/
def BATCH_SIZE : Nat := 5000

/-- `not pattern or re.fullmatch(pattern, p.name)`. -/
def matchesPattern (pattern : Option (String → Bool)) (fname : String) : Bool :=
  match pattern with
  | none => true
  | some p => p fname

/-- Watermark read: `status.setdefault(name, {}).get("last_mtime", epoch)`
converted to a timestamp — the persisted value, or the epoch when the
source has no entry or an entry without `"last_mtime"`. -/
def getWatermark (st : Status) (srcName : String) : Nat :=
  match st.lookup srcName with
  | some (some m) => m
  | _ => 0

/-- Status update: `status[name]["last_mtime"] = m` on the freshly read
table — replaces the entry for `srcName` (keeping its position, as a dict
does), or appends it when absent (as `setdefault` then assignment does). -/
def setStatus (st : Status) (srcName : String) (m : Nat) : Status :=
  match st with
  | [] => [(srcName, some m)]
  | (k, v) :: rest =>
      if k = srcName then (k, some m) :: rest
      else (k, v) :: setStatus rest srcName m

/-- The candidate scan for one source: keep directory entries that are
regular files, whose mtime could be read (`get_mtime ≠ None`), is
strictly newer than the watermark, and whose name matches the pattern.
Order is the directory listing order (the generator preserves it). -/
def candidateList (listing : List FileEntry) (pattern : Option (String → Bool))
    (cutoff : Nat) : List (FileEntry × Nat) :=
  (listing.filter (fun f => f.isFile)).filterMap (fun f =>
    match get_mtime f with
    | none => none
    | some t =>
        if cutoff < t && matchesPattern pattern f.name then some (f, t) else none)

/-- Stable insertion into a list sorted ascending by mtime: the new
element goes before the first strictly larger key, after equal keys. -/
def insertByMtime (x : FileEntry × Nat) : List (FileEntry × Nat) → List (FileEntry × Nat)
  | [] => [x]
  | y :: ys => if x.2 ≤ y.2 then x :: y :: ys else y :: insertByMtime x ys

/-- `sorted(file_mtimes_paths, key=lambda tp: tp[1])`: a stable sort
ascending by mtime (Python's `sorted` is stable; ties keep the input,
i.e. directory listing, order). -/
def sortByMtime : List (FileEntry × Nat) → List (FileEntry × Nat)
  | [] => []
  | x :: xs => insertByMtime x (sortByMtime xs)

/-- `sorted_file_mtimes_paths` for one source given the current status
table: scan, filter, sort. -/
def sortedCandidatesOf (env : Env R M) (st : Status) (s : SourceConfig) :
    List (FileEntry × Nat) :=
  sortByMtime (candidateList (env.listing s.subdir) s.pattern (getWatermark st s.name))

/-- The records generator spanning all candidate files: `parse_file` is
invoked per candidate in sorted order and the results concatenated. -/
def recordsOf (env : Env R M) (st : Status) (s : SourceConfig) (md : M) : List R :=
  (sortedCandidatesOf env st s).flatMap (fun c => env.parseFile c.1.name s.name md)

/-- Structural worker for `chunkList`: the fuel bounds the number of
chunks still to emit (one unit per chunk head); it is always called with
fuel at least the remaining stream length, so the fuel never runs out. -/
def chunkListFuel (k : Nat) : Nat → List α → List (List α)
  | _, [] => []
  | 0, _ :: _ => []
  | fuel + 1, x :: xs => (x :: xs.take (k - 1)) :: chunkListFuel k fuel (xs.drop (k - 1))

/-- `buffer_with_count k`: group a stream into consecutive chunks of size
`k`, the last one possibly shorter; an empty stream yields no chunk (an
empty batch is never emitted). -/
def chunkList (k : Nat) (l : List α) : List (List α) :=
  chunkListFuel k l.length l

/-- The batches fed to `subscribe` for one source. -/
def batchesOf (env : Env R M) (st : Status) (s : SourceConfig) (md : M) : List (List R) :=
  chunkList BATCH_SIZE (recordsOf env st s md)

/-- The `subscribe(on_next=_write, on_error=_on_write_error)` loop over the
batch stream, starting at batch index `i`: each emitted buffer is a
`formBatch` event; when not in dry run, `_write` issues a `writeCall` for
it; a failed write (after the client's retries) raises
`InfluxDBFileImporterWriteError` via `_on_write_error`, which disposes the
stream — no later batch is formed or written. In dry run `on_next` is
`None`, so buffers are formed but never written. -/
def deliver (env : Env R M) (srcName : String) : Nat → List (List R) →
    List (Event R) × Option RunError
  | _, [] => ([], none)
  | i, b :: bs =>
      if env.dryRun then
        let rest := deliver env srcName (i + 1) bs
        (Event.formBatch srcName i b :: rest.1, rest.2)
      else if env.writeOk srcName i then
        let rest := deliver env srcName (i + 1) bs
        (Event.formBatch srcName i b :: Event.writeCall srcName i b :: rest.1, rest.2)
      else
        ([Event.formBatch srcName i b, Event.writeCall srcName i b],
          some (RunError.influxWriteError srcName))

/-- `sorted_file_mtimes_paths[-1][1]`: the mtime of the last candidate in
sorted order (the new watermark value). -/
def newWatermark (cands : List (FileEntry × Nat)) : Nat :=
  (cands.map (fun c => c.2)).getLastD 0

/-- One iteration of the `for name, config in self._files_cfg["data"]`
loop, threading the status-file contents. In source order: bind metadata
(`load_metadata`, uncaught on failure), read the status file, scan and
sort candidates, skip the source when none, otherwise build the record
stream, batch and deliver it, and on full success write the new watermark
to the status file (unless dry run). Returns the events, the status-file
contents after the iteration, and the error that aborted it, if any. -/
def processSource (env : Env R M) (st : Status) (s : SourceConfig) :
    List (Event R) × Status × Option RunError :=
  match env.loadMetadata s.metadataPath s.name with
  | Except.error _ => ([Event.loadMeta s.name], st, some (RunError.metadataError s.name))
  | Except.ok md =>
      let cands := sortedCandidatesOf env st s
      if cands.isEmpty then
        ([Event.loadMeta s.name], st, none)
      else
        let batches := batchesOf env st s md
        match deliver env s.name 0 batches with
        | (tr, some e) => (Event.loadMeta s.name :: tr, st, some e)
        | (tr, none) =>
            let st' := if env.dryRun then st else setStatus st s.name (newWatermark cands)
            (Event.loadMeta s.name :: tr, st', none)

/-- `import_files` over the configured sources in declared order: run each
source's iteration; any error propagates immediately, aborting the run
(no later source is processed, the status file stays as it was when the
error was raised). -/
def importFiles (env : Env R M) : List SourceConfig → Status →
    List (Event R) × Status × Option RunError
  | [], st => ([], st, none)
  | s :: rest, st =>
      match processSource env st s with
      | (tr, st', some e) => (tr, st', some e)
      | (tr, st', none) =>
          let out := importFiles env rest st'
          (tr ++ out.1, out.2.1, out.2.2)

/-- Top of `import_files`: if the status file does not exist it is created
holding the empty JSON object `{}`; the run then proceeds on the file's
contents. `statusFile = none` models an absent file. -/
def importFilesRun (env : Env R M) (srcs : List SourceConfig)
    (statusFile : Option Status) : List (Event R) × Status × Option RunError :=
  importFiles env srcs (match statusFile with | none => [] | some st => st)

/-! ## Lemmas about the stable sort `sortByMtime` -/

theorem mem_insertByMtime {x a : FileEntry × Nat} {l : List (FileEntry × Nat)} :
    x ∈ insertByMtime a l ↔ x = a ∨ x ∈ l := by
  induction l with
  | nil => simp [insertByMtime]
  | cons y ys ih =>
      simp only [insertByMtime]
      by_cases h : a.2 ≤ y.2
      · rw [if_pos h]
        simp
      · rw [if_neg h]
        simp [ih]
        tauto

theorem pairwise_insertByMtime {a : FileEntry × Nat} {l : List (FileEntry × Nat)}
    (h : l.Pairwise (fun u v => u.2 ≤ v.2)) :
    (insertByMtime a l).Pairwise (fun u v => u.2 ≤ v.2) := by
  induction l with
  | nil => simp [insertByMtime]
  | cons y ys ih =>
      rcases List.pairwise_cons.mp h with ⟨hy, hys⟩
      simp only [insertByMtime]
      by_cases hle : a.2 ≤ y.2
      · rw [if_pos hle]
        refine List.pairwise_cons.mpr ⟨?_, h⟩
        intro z hz
        rcases List.mem_cons.mp hz with rfl | hz2
        · exact hle
        · exact le_trans hle (hy z hz2)
      · rw [if_neg hle]
        refine List.pairwise_cons.mpr ⟨?_, ih hys⟩
        intro z hz
        rcases mem_insertByMtime.mp hz with rfl | hz2
        · exact le_of_not_le hle
        · exact hy z hz2

theorem mem_sortByMtime {x : FileEntry × Nat} {l : List (FileEntry × Nat)} :
    x ∈ sortByMtime l ↔ x ∈ l := by
  induction l with
  | nil => simp [sortByMtime]
  | cons y ys ih =>
      simp only [sortByMtime]
      rw [mem_insertByMtime]
      simp [ih]

theorem sortByMtime_pairwise (l : List (FileEntry × Nat)) :
    (sortByMtime l).Pairwise (fun u v => u.2 ≤ v.2) := by
  induction l with
  | nil => simp [sortByMtime]
  | cons y ys ih =>
      simp only [sortByMtime]
      exact pairwise_insertByMtime ih

theorem filter_insertByMtime (a : FileEntry × Nat) (l : List (FileEntry × Nat)) (m : Nat) :
    (insertByMtime a l).filter (fun c => c.2 == m) =
      (a :: l).filter (fun c => c.2 == m) := by
  induction l with
  | nil => simp [insertByMtime]
  | cons y ys ih =>
      simp only [insertByMtime]
      by_cases hle : a.2 ≤ y.2
      · rw [if_pos hle]
      · rw [if_neg hle]
        by_cases hy : y.2 = m
        · by_cases ha : a.2 = m
          · exact absurd (by omega : a.2 ≤ y.2) hle
          · simp [List.filter_cons, ih, hy, ha]
        · by_cases ha : a.2 = m
          · simp [List.filter_cons, ih, hy, ha]
          · simp [List.filter_cons, ih, hy, ha]

theorem sortByMtime_filter (l : List (FileEntry × Nat)) (m : Nat) :
    (sortByMtime l).filter (fun c => c.2 == m) = l.filter (fun c => c.2 == m) := by
  induction l with
  | nil => rfl
  | cons y ys ih =>
      simp only [sortByMtime]
      rw [filter_insertByMtime]
      simp [List.filter_cons, ih]

/-! ## Lemmas about the status table -/

theorem lookup_setStatus_self (st : Status) (n : String) (m : Nat) :
    (setStatus st n m).lookup n = some (some m) := by
  induction st with
  | nil => simp [setStatus, List.lookup]
  | cons kv rest ih =>
      obtain ⟨k, v⟩ := kv
      simp only [setStatus]
      by_cases hk : k = n
      · subst hk
        simp [List.lookup]
      · rw [if_neg hk]
        have hnk : (n == k) = false := beq_eq_false_iff_ne.mpr (fun h => hk h.symm)
        simp [List.lookup, hnk, ih]

theorem lookup_setStatus_ne (st : Status) (n : String) (m : Nat) (k : String)
    (h : k ≠ n) :
    (setStatus st n m).lookup k = st.lookup k := by
  induction st with
  | nil => simp [setStatus, List.lookup, beq_eq_false_iff_ne.mpr h]
  | cons kv rest ih =>
      obtain ⟨k1, v⟩ := kv
      simp only [setStatus]
      by_cases hk : k1 = n
      · subst hk
        simp [List.lookup, beq_eq_false_iff_ne.mpr h]
      · rw [if_neg hk]
        cases hkk : (k == k1) <;> simp [List.lookup, hkk, ih]

theorem getWatermark_setStatus_self (st : Status) (n : String) (m : Nat) :
    getWatermark (setStatus st n m) n = m := by
  simp [getWatermark, lookup_setStatus_self]

theorem getWatermark_setStatus_ne (st : Status) (n : String) (m : Nat) (k : String)
    (h : k ≠ n) :
    getWatermark (setStatus st n m) k = getWatermark st k := by
  simp [getWatermark, lookup_setStatus_ne st n m k h]

/-! ## Lemmas about batching -/

theorem chunkListFuel_congr (k : Nat) :
    ∀ (f1 f2 : Nat) (l : List α), l.length ≤ f1 → l.length ≤ f2 →
      chunkListFuel k f1 l = chunkListFuel k f2 l := by
  intro f1
  induction f1 with
  | zero =>
      intro f2 l h1 h2
      have : l = [] := List.length_eq_zero.mp (Nat.le_zero.mp h1)
      subst this
      cases f2 <;> rfl
  | succ f1 ih =>
      intro f2 l h1 h2
      cases l with
      | nil => cases f2 <;> rfl
      | cons x xs =>
          simp only [List.length_cons] at h1 h2
          obtain ⟨f2p, rfl⟩ : ∃ f2p, f2 = f2p + 1 := ⟨f2 - 1, by omega⟩
          simp only [chunkListFuel]
          congr 1
          exact ih f2p (xs.drop (k - 1))
            (le_trans (List.length_drop .. ▸ Nat.sub_le xs.length (k - 1)) (by omega))
            (le_trans (List.length_drop .. ▸ Nat.sub_le xs.length (k - 1)) (by omega))

theorem chunkList_nil (k : Nat) : chunkList k ([] : List α) = [] := rfl

theorem chunkList_cons (k : Nat) (x : α) (xs : List α) :
    chunkList k (x :: xs) = (x :: xs.take (k - 1)) :: chunkList k (xs.drop (k - 1)) := by
  show chunkListFuel k (x :: xs).length (x :: xs) = _
  simp only [List.length_cons, chunkListFuel]
  congr 1
  exact chunkListFuel_congr k xs.length (xs.drop (k - 1)).length (xs.drop (k - 1))
    (List.length_drop .. ▸ Nat.sub_le xs.length (k - 1)) le_rfl

theorem chunkList_flatten (k : Nat) : ∀ (l : List α), (chunkList k l).flatten = l
  | [] => by rw [chunkList_nil]; rfl
  | x :: xs => by
      rw [chunkList_cons, List.flatten_cons, chunkList_flatten k (xs.drop (k - 1)),
        List.cons_append, List.take_append_drop]
termination_by l => l.length
decreasing_by
  simp only [List.length_cons, List.length_drop]
  omega

theorem chunkList_take_drop (k : Nat) (hk : 0 < k) (l : List α) (h : l ≠ []) :
    chunkList k l = l.take k :: chunkList k (l.drop k) := by
  cases l with
  | nil => exact absurd rfl h
  | cons x xs =>
      obtain ⟨k2, rfl⟩ : ∃ k2, k = k2 + 1 := ⟨k - 1, by omega⟩
      rw [chunkList_cons]
      simp [Nat.add_sub_cancel]

/-! ## Lemmas about the candidate scan -/

theorem candidateList_append (l1 l2 : List FileEntry) (pat : Option (String → Bool))
    (cutoff : Nat) :
    candidateList (l1 ++ l2) pat cutoff =
      candidateList l1 pat cutoff ++ candidateList l2 pat cutoff := by
  simp [candidateList, List.filter_append, List.filterMap_append]

theorem mem_candidateList {c : FileEntry × Nat} {listing : List FileEntry}
    {pat : Option (String → Bool)} {cutoff : Nat}
    (h : c ∈ candidateList listing pat cutoff) :
    c.1 ∈ listing ∧ c.1.isFile = true ∧ get_mtime c.1 = some c.2 ∧ cutoff < c.2 ∧
      matchesPattern pat c.1.name = true := by
  simp only [candidateList, List.mem_filterMap] at h
  obtain ⟨f, hf, hmap⟩ := h
  rcases List.mem_filter.mp hf with ⟨hmem, hisfile⟩
  split at hmap
  · exact absurd hmap (by simp)
  · rename_i t hmt
    split at hmap
    · rename_i hcond
      simp only [Option.some.injEq] at hmap
      subst hmap
      simp only [Bool.and_eq_true, decide_eq_true_eq] at hcond
      exact ⟨hmem, hisfile, hmt, hcond.1, hcond.2⟩
    · exact absurd hmap (by simp)

theorem candidateList_vanished (l1 l2 : List FileEntry) (e : FileEntry)
    (pat : Option (String → Bool)) (cutoff : Nat) (h : e.mtime = none) :
    candidateList (l1 ++ e :: l2) pat cutoff = candidateList (l1 ++ l2) pat cutoff := by
  rw [candidateList_append, candidateList_append]
  congr 1
  by_cases hf : e.isFile <;>
    simp [candidateList, List.filter_cons, List.filterMap_cons, get_mtime, h, hf]

/-! ## Lemmas about the delivery loop -/

theorem deliver_dry (env : Env R M) (srcName : String) (h : env.dryRun = true)
    (i : Nat) (bs : List (List R)) :
    deliver env srcName i bs =
      ((bs.enumFrom i).map (fun p => Event.formBatch srcName p.1 p.2), none) := by
  induction bs generalizing i with
  | nil => simp [deliver, List.enumFrom]
  | cons b bs ih => simp [deliver, h, ih, List.enumFrom]

theorem deliver_allOk (env : Env R M) (srcName : String) (hdry : env.dryRun = false)
    (hok : ∀ j, env.writeOk srcName j = true) (i : Nat) (bs : List (List R)) :
    deliver env srcName i bs =
      ((bs.enumFrom i).flatMap
        (fun p => [Event.formBatch srcName p.1 p.2, Event.writeCall srcName p.1 p.2]),
        none) := by
  induction bs generalizing i with
  | nil => simp [deliver, List.enumFrom]
  | cons b bs ih => simp [deliver, hdry, hok, ih, List.enumFrom]

theorem deliver_firstFail (env : Env R M) (srcName : String)
    (hdry : env.dryRun = false) (i : Nat)
    (hfail : env.writeOk srcName i = false) :
    ∀ (bs : List (List R)) (k : Nat), k ≤ i → i - k < bs.length →
      (∀ j, k ≤ j → j < i → env.writeOk srcName j = true) →
      (deliver env srcName k bs).2 = some (RunError.influxWriteError srcName) ∧
      (∀ n j b, Event.writeCall n j b ∈ (deliver env srcName k bs).1 →
        n = srcName ∧ j ≤ i) ∧
      (∀ n j b, Event.formBatch n j b ∈ (deliver env srcName k bs).1 →
        n = srcName ∧ j ≤ i) := by
  intro bs
  induction bs with
  | nil =>
      intro k hk hlen hok
      simp at hlen
  | cons b bs ih =>
      intro k hk hlen hok
      rcases Nat.lt_or_ge k i with hki | hki
      · have hwk : env.writeOk srcName k = true := hok k le_rfl hki
        have hrec := ih (k + 1) (by omega)
          (by simp only [List.length_cons] at hlen; omega)
          (fun j h1 h2 => hok j (by omega) h2)
        have hD : deliver env srcName k (b :: bs) =
            (Event.formBatch srcName k b :: Event.writeCall srcName k b ::
              (deliver env srcName (k + 1) bs).1,
              (deliver env srcName (k + 1) bs).2) := by
          simp [deliver, hdry, hwk]
        rw [hD]
        refine ⟨hrec.1, ?_, ?_⟩
        · intro n j bb hmem
          simp only [List.mem_cons] at hmem
          rcases hmem with heq | heq | hmem2
          · exact absurd heq (by simp)
          · obtain ⟨h1, h2, h3⟩ := Event.writeCall.inj heq
            exact ⟨h1, by omega⟩
          · exact hrec.2.1 n j bb hmem2
        · intro n j bb hmem
          simp only [List.mem_cons] at hmem
          rcases hmem with heq | heq | hmem2
          · obtain ⟨h1, h2, h3⟩ := Event.formBatch.inj heq
            exact ⟨h1, by omega⟩
          · exact absurd heq (by simp)
          · exact hrec.2.2 n j bb hmem2
      · have hik : k = i := by omega
        subst hik
        have hD : deliver env srcName k (b :: bs) =
            ([Event.formBatch srcName k b, Event.writeCall srcName k b],
              some (RunError.influxWriteError srcName)) := by
          simp [deliver, hdry, hfail]
        rw [hD]
        refine ⟨rfl, ?_, ?_⟩
        · intro n j bb hmem
          simp only [List.mem_cons, List.not_mem_nil, or_false] at hmem
          rcases hmem with heq | heq
          · exact absurd heq (by simp)
          · obtain ⟨h1, h2, h3⟩ := Event.writeCall.inj heq
            exact ⟨h1, by omega⟩
        · intro n j bb hmem
          simp only [List.mem_cons, List.not_mem_nil, or_false] at hmem
          rcases hmem with heq | heq
          · obtain ⟨h1, h2, h3⟩ := Event.formBatch.inj heq
            exact ⟨h1, by omega⟩
          · exact absurd heq (by simp)

/-! ## Lemmas about the committed watermark value -/

theorem le_getLastD_of_pairwise {l : List Nat} (h : l.Pairwise (· ≤ ·)) :
    ∀ x ∈ l, x ≤ l.getLastD 0 := by
  induction l with
  | nil => simp
  | cons y ys ih =>
      rcases List.pairwise_cons.mp h with ⟨hy, hys⟩
      intro x hx
      rcases List.mem_cons.mp hx with rfl | hx2
      · cases ys with
        | nil => simp [List.getLastD]
        | cons z zs =>
            have h1 : List.getLastD (x :: z :: zs) 0 = List.getLastD (z :: zs) 0 := by
              simp [List.getLastD_eq_getLast?]
            rw [h1]
            exact le_trans (hy z (by simp)) (ih hys z (by simp))
      · cases ys with
        | nil => simp at hx2
        | cons z zs =>
            have h1 : List.getLastD (y :: z :: zs) 0 = List.getLastD (z :: zs) 0 := by
              simp [List.getLastD_eq_getLast?]
            rw [h1]
            exact ih hys x hx2

theorem newWatermark_ge {l : List (FileEntry × Nat)}
    (hs : l.Pairwise (fun u v => u.2 ≤ v.2)) (c : FileEntry × Nat) (hc : c ∈ l) :
    c.2 ≤ newWatermark l := by
  have hp : (l.map (fun c => c.2)).Pairwise (· ≤ ·) := List.pairwise_map.mpr hs
  exact le_getLastD_of_pairwise hp c.2 (List.mem_map_of_mem _ hc)

theorem newWatermark_mem {l : List (FileEntry × Nat)} (h : l ≠ []) :
    newWatermark l ∈ l.map (fun c => c.2) := by
  have hne : l.map (fun c => c.2) ≠ [] := by simpa using h
  rw [newWatermark, List.getLastD_eq_getLast?, List.getLast?_eq_getLast _ hne]
  simp only [Option.getD_some]
  exact List.getLast_mem hne

/-! ## Equation lemmas for `processSource` and `importFiles` -/

theorem processSource_metaErr (env : Env R M) (st : Status) (s : SourceConfig)
    (e : Unit) (h : env.loadMetadata s.metadataPath s.name = Except.error e) :
    processSource env st s =
      ([Event.loadMeta s.name], st, some (RunError.metadataError s.name)) := by
  simp [processSource, h]

theorem processSource_emptyScan (env : Env R M) (st : Status) (s : SourceConfig)
    (md : M) (hmeta : env.loadMetadata s.metadataPath s.name = Except.ok md)
    (h : sortedCandidatesOf env st s = []) :
    processSource env st s = ([Event.loadMeta s.name], st, none) := by
  simp [processSource, hmeta, h]

theorem isEmpty_false_of_ne_nil {l : List (FileEntry × Nat)} (h : l ≠ []) :
    l.isEmpty = false := by
  cases hl : l with
  | nil => exact absurd hl h
  | cons a as => rfl

theorem processSource_deliverFail (env : Env R M) (st : Status) (s : SourceConfig)
    (md : M) (e : RunError)
    (hmeta : env.loadMetadata s.metadataPath s.name = Except.ok md)
    (hne : sortedCandidatesOf env st s ≠ [])
    (hd : (deliver env s.name 0 (batchesOf env st s md)).2 = some e) :
    processSource env st s =
      (Event.loadMeta s.name :: (deliver env s.name 0 (batchesOf env st s md)).1,
        st, some e) := by
  simp only [processSource, hmeta, isEmpty_false_of_ne_nil hne, Bool.false_eq_true,
    if_false]
  rcases hD : deliver env s.name 0 (batchesOf env st s md) with ⟨tr, err⟩
  rw [hD] at hd
  simp only at hd
  subst hd
  rfl

theorem processSource_deliverOk (env : Env R M) (st : Status) (s : SourceConfig)
    (md : M)
    (hmeta : env.loadMetadata s.metadataPath s.name = Except.ok md)
    (hne : sortedCandidatesOf env st s ≠ [])
    (hd : (deliver env s.name 0 (batchesOf env st s md)).2 = none) :
    processSource env st s =
      (Event.loadMeta s.name :: (deliver env s.name 0 (batchesOf env st s md)).1,
        (if env.dryRun then st
         else setStatus st s.name (newWatermark (sortedCandidatesOf env st s))),
        none) := by
  simp only [processSource, hmeta, isEmpty_false_of_ne_nil hne, Bool.false_eq_true,
    if_false]
  rcases hD : deliver env s.name 0 (batchesOf env st s md) with ⟨tr, err⟩
  rw [hD] at hd
  simp only at hd
  subst hd
  rfl

theorem importFiles_nil (env : Env R M) (st : Status) :
    importFiles env [] st = ([], st, none) := rfl

theorem importFiles_cons_err (env : Env R M) (s : SourceConfig)
    (rest : List SourceConfig) (st : Status) (tr : List (Event R)) (st2 : Status)
    (e : RunError) (h : processSource env st s = (tr, st2, some e)) :
    importFiles env (s :: rest) st = (tr, st2, some e) := by
  simp [importFiles, h]

theorem importFiles_cons_ok (env : Env R M) (s : SourceConfig)
    (rest : List SourceConfig) (st : Status) (tr : List (Event R)) (st2 : Status)
    (h : processSource env st s = (tr, st2, none)) :
    importFiles env (s :: rest) st =
      (tr ++ (importFiles env rest st2).1, (importFiles env rest st2).2.1,
        (importFiles env rest st2).2.2) := by
  simp [importFiles, h]

/-! ## Concrete environments used by witnesses and counterexamples -/

/-- A regular file with mtime 10. -/
def c1Entry : FileEntry := { name := "f1", isFile := true, mtime := some 10 }

/-- Environment where every remote batch write fails (after retries). -/
def c1Env : Env Nat Nat where
  listing := fun _ => [c1Entry]
  loadMetadata := fun _ _ => Except.ok 0
  parseFile := fun _ _ _ => [1, 2, 3]
  writeOk := fun _ _ => false
  dryRun := false

def c1Src : SourceConfig :=
  { name := "a", subdir := "d", pattern := none, metadataPath := "m" }

def c1Src2 : SourceConfig :=
  { name := "b", subdir := "d", pattern := none, metadataPath := "m" }

/-! ## C1 -/

/-- C1: if some batch write for a source fails after the remote client's
retries are exhausted (`i` is the first failing batch index),
`import_files` surfaces the single typed delivery error
(`InfluxDBFileImporterWriteError`), the status table — in particular the
failing source's watermark entry — is not updated, no batch of that
source's stream beyond index `i` is formed or written, and no source
listed after it in the configuration is processed in that run (the run's
outcome is identical to the run configured with that source alone). -/
theorem importFiles_writeFail_aborts (env : Env R M) (st : Status)
    (s : SourceConfig) (rest : List SourceConfig) (md : M) (i : Nat)
    (hdry : env.dryRun = false)
    (hmeta : env.loadMetadata s.metadataPath s.name = Except.ok md)
    (hi : i < (batchesOf env st s md).length)
    (hfail : env.writeOk s.name i = false)
    (hfirst : ∀ j, j < i → env.writeOk s.name j = true) :
    (importFiles env (s :: rest) st).2.2 =
        some (RunError.influxWriteError s.name) ∧
    (importFiles env (s :: rest) st).2.1 = st ∧
    (∀ n j b, Event.writeCall n j b ∈ (importFiles env (s :: rest) st).1 →
        n = s.name ∧ j ≤ i) ∧
    (∀ n j b, Event.formBatch n j b ∈ (importFiles env (s :: rest) st).1 →
        n = s.name ∧ j ≤ i) ∧
    importFiles env (s :: rest) st = importFiles env [s] st := by
  have hne_b : batchesOf env st s md ≠ [] := by
    intro hb
    rw [hb] at hi
    simp at hi
  have hne_c : sortedCandidatesOf env st s ≠ [] := by
    intro hc
    apply hne_b
    simp [batchesOf, recordsOf, hc, chunkList_nil]
  obtain ⟨herr, hwc, hfb⟩ := deliver_firstFail env s.name hdry i hfail
    (batchesOf env st s md) 0 (Nat.zero_le i) (by simpa using hi)
    (fun j h0 hj => hfirst j hj)
  have hps := processSource_deliverFail env st s md _ hmeta hne_c herr
  have h1 := importFiles_cons_err env s rest st _ st _ hps
  have h2 := importFiles_cons_err env s [] st _ st _ hps
  rw [h1, h2]
  refine ⟨rfl, rfl, ?_, ?_, rfl⟩
  · intro n j b hmem
    rcases List.mem_cons.mp hmem with heq | hmem2
    · exact absurd heq (by simp)
    · exact hwc n j b hmem2
  · intro n j b hmem
    rcases List.mem_cons.mp hmem with heq | hmem2
    · exact absurd heq (by simp)
    · exact hfb n j b hmem2

/-- C1 witness: in `c1Env` the first batch write of source "a" fails; the
two-source run aborts with the typed error, leaves the status table
unchanged, and is identical to the one-source run. -/
theorem importFiles_writeFail_aborts_witness :
    c1Env.dryRun = false ∧
    (0 : Nat) < (batchesOf c1Env [] c1Src 0).length ∧
    c1Env.writeOk c1Src.name 0 = false ∧
    (importFiles c1Env [c1Src, c1Src2] []).2.2 =
      some (RunError.influxWriteError c1Src.name) ∧
    (importFiles c1Env [c1Src, c1Src2] []).2.1 = [] ∧
    importFiles c1Env [c1Src, c1Src2] [] = importFiles c1Env [c1Src] [] := by
  have H := importFiles_writeFail_aborts c1Env [] c1Src [c1Src2] 0 0 rfl rfl
    (by decide) rfl (fun j hj => absurd hj (Nat.not_lt_zero j))
  exact ⟨rfl, by decide, rfl, H.1, H.2.1, H.2.2.2.2⟩

/-! ## C2 -/

/-- Environment whose directory listing is empty: zero candidates. -/
def c2Env : Env Nat Nat where
  listing := fun _ => []
  loadMetadata := fun _ _ => Except.ok 7
  parseFile := fun _ _ _ => []
  writeOk := fun _ _ => true
  dryRun := false

def c2Src : SourceConfig :=
  { name := "s2", subdir := "d", pattern := none, metadataPath := "m2" }

/-- C2 counterexample: a source with zero candidates still gets a
`load_metadata` call — the binding happens before the scan, so the claim
"no metadata-binding call is made for it" is false: the run's trace for
this zero-candidate source is exactly one `loadMeta` event. -/
theorem importFiles_emptyScan_callsLoadMetadata :
    sortedCandidatesOf c2Env [] c2Src = [] ∧
    (importFiles c2Env [c2Src] []).1 = [Event.loadMeta "s2"] ∧
    Event.loadMeta "s2" ∈ (importFiles c2Env [c2Src] []).1 := by
  refine ⟨rfl, by decide, by decide⟩

/-- C2 amended: for a source whose scan yields zero candidates,
`import_files` does call `load_metadata` (once, before the scan), but
performs no delivery (the trace for the source is exactly the one
`loadMeta` event — no batch formed, no write issued), leaves the status
table unchanged, raises nothing, and proceeds to the remaining sources. -/
theorem processSource_emptyScan_skips (env : Env R M) (st : Status)
    (s : SourceConfig) (rest : List SourceConfig) (md : M)
    (hmeta : env.loadMetadata s.metadataPath s.name = Except.ok md)
    (hempty : sortedCandidatesOf env st s = []) :
    processSource env st s = ([Event.loadMeta s.name], st, none) ∧
    importFiles env (s :: rest) st =
      (Event.loadMeta s.name :: (importFiles env rest st).1,
        (importFiles env rest st).2.1, (importFiles env rest st).2.2) := by
  have hps := processSource_emptyScan env st s md hmeta hempty
  refine ⟨hps, ?_⟩
  rw [importFiles_cons_ok env s rest st _ st hps]
  rfl

/-- C2 amended witness: concrete zero-candidate source. -/
theorem processSource_emptyScan_skips_witness :
    c2Env.loadMetadata c2Src.metadataPath c2Src.name = Except.ok 7 ∧
    sortedCandidatesOf c2Env [] c2Src = [] ∧
    processSource c2Env [] c2Src = ([Event.loadMeta "s2"], [], none) :=
  ⟨rfl, rfl, (processSource_emptyScan_skips c2Env [] c2Src [] 7 rfl rfl).1⟩

/-! ## C3 -/

theorem processSource_watermark_mono (env : Env R M) (st : Status) (s : SourceConfig)
    (hsucc : (processSource env st s).2.2 = none) (n : String) :
    getWatermark st n ≤ getWatermark (processSource env st s).2.1 n := by
  cases hmeta : env.loadMetadata s.metadataPath s.name with
  | error e =>
      rw [processSource_metaErr env st s e hmeta] at hsucc
      simp at hsucc
  | ok md =>
      by_cases hc : sortedCandidatesOf env st s = []
      · rw [processSource_emptyScan env st s md hmeta hc]
      · cases hd : (deliver env s.name 0 (batchesOf env st s md)).2 with
        | some e =>
            rw [processSource_deliverFail env st s md e hmeta hc hd] at hsucc
            simp at hsucc
        | none =>
            rw [processSource_deliverOk env st s md hmeta hc hd]
            by_cases hdry : env.dryRun = true
            · simp [hdry]
            · simp only [Bool.not_eq_true] at hdry
              simp only [hdry, Bool.false_eq_true, if_false]
              by_cases hn : n = s.name
              · rw [hn, getWatermark_setStatus_self]
                have hmemw := newWatermark_mem (l := sortedCandidatesOf env st s) hc
                obtain ⟨c, hcmem, hceq⟩ := List.mem_map.mp hmemw
                simp only [sortedCandidatesOf] at hcmem
                have hcand := mem_sortByMtime.mp hcmem
                have hlt := (mem_candidateList hcand).2.2.2.1
                calc getWatermark st s.name ≤ c.2 := le_of_lt hlt
                  _ = newWatermark (sortedCandidatesOf env st s) := hceq
              · rw [getWatermark_setStatus_ne st s.name _ n hn]

/-- C3: for every source, if a run of `import_files` completes without
error (and not in dry-run mode), the watermark stored for that source
after the run is never earlier than the watermark stored before it. -/
theorem importFiles_watermark_mono (env : Env R M) (srcs : List SourceConfig)
    (st : Status) (hdry : env.dryRun = false) (n : String)
    (hok : (importFiles env srcs st).2.2 = none) :
    getWatermark st n ≤ getWatermark ((importFiles env srcs st).2.1) n := by
  clear hdry
  revert hok
  induction srcs generalizing st with
  | nil =>
      intro hok
      exact le_rfl
  | cons s rest ih =>
      intro hok
      rcases hps : processSource env st s with ⟨tr, st2, err⟩
      cases err with
      | some e =>
          rw [importFiles_cons_err env s rest st tr st2 e hps] at hok
          simp at hok
      | none =>
          have h1 := importFiles_cons_ok env s rest st tr st2 hps
          rw [h1] at hok ⊢
          have hm1 : getWatermark st n ≤ getWatermark st2 n := by
            have hm := processSource_watermark_mono env st s (by rw [hps]) n
            rw [hps] at hm
            exact hm
          exact le_trans hm1 (ih st2 hok)

/-- Environment for a successful (non-dry) run: one source, one file,
one record, all writes succeed. -/
def c3Env : Env Nat Nat where
  listing := fun _ => [{ name := "g", isFile := true, mtime := some 42 }]
  loadMetadata := fun _ _ => Except.ok 1
  parseFile := fun _ _ _ => [99]
  writeOk := fun _ _ => true
  dryRun := false

def c3Src : SourceConfig :=
  { name := "c", subdir := "d", pattern := none, metadataPath := "m" }

/-- C3 witness: a successful concrete run; the watermark for "c" goes
from the epoch 0 to 42, and monotonicity is the theorem instantiated. -/
theorem importFiles_watermark_mono_witness :
    c3Env.dryRun = false ∧
    (importFiles c3Env [c3Src] []).2.2 = none ∧
    getWatermark [] "c" ≤ getWatermark ((importFiles c3Env [c3Src] []).2.1) "c" :=
  ⟨rfl, by decide, importFiles_watermark_mono c3Env [c3Src] [] rfl "c" (by decide)⟩

/-! ## C4 -/

/-- C4: a record stream of 12000 records with the default `BATCH_SIZE`
of 5000 forms exactly 3 batches sized 5000, 5000, 2000; their
concatenation is the stream itself (stream order preserved); and when no
write fails (not in dry run) they are delivered synchronously in stream
order with consecutive indices 0, 1, 2 — each batch's write completing
before the next batch is formed. -/
theorem chunkList_12000 (l : List Nat) (h : l.length = 12000) :
    (chunkList BATCH_SIZE l).map List.length = [5000, 5000, 2000] ∧
    (chunkList BATCH_SIZE l).flatten = l ∧
    (∀ (env : Env Nat Nat) (nm : String), env.dryRun = false →
      (∀ j, env.writeOk nm j = true) →
      deliver env nm 0 (chunkList BATCH_SIZE l) =
        (((chunkList BATCH_SIZE l).enumFrom 0).flatMap
          (fun p => [Event.formBatch nm p.1 p.2, Event.writeCall nm p.1 p.2]),
          none)) := by
  have h0 : l ≠ [] := by
    intro hh
    rw [hh] at h
    simp at h
  have hB : BATCH_SIZE = 5000 := rfl
  have h1 : chunkList 5000 l = l.take 5000 :: chunkList 5000 (l.drop 5000) :=
    chunkList_take_drop 5000 (by norm_num) l h0
  have hd1 : (l.drop 5000).length = 7000 := by simp [h]
  have h0b : l.drop 5000 ≠ [] := by
    intro hh
    rw [hh] at hd1
    simp at hd1
  have h2 : chunkList 5000 (l.drop 5000) =
      (l.drop 5000).take 5000 :: chunkList 5000 ((l.drop 5000).drop 5000) :=
    chunkList_take_drop 5000 (by norm_num) _ h0b
  have hd2 : ((l.drop 5000).drop 5000).length = 2000 := by simp [h]
  have h0c : (l.drop 5000).drop 5000 ≠ [] := by
    intro hh
    rw [hh] at hd2
    simp at hd2
  have h3 : chunkList 5000 ((l.drop 5000).drop 5000) =
      ((l.drop 5000).drop 5000).take 5000 ::
        chunkList 5000 (((l.drop 5000).drop 5000).drop 5000) :=
    chunkList_take_drop 5000 (by norm_num) _ h0c
  have hd3 : ((l.drop 5000).drop 5000).drop 5000 = [] :=
    List.length_eq_zero.mp (by simp [h])
  refine ⟨?_, chunkList_flatten BATCH_SIZE l, ?_⟩
  · rw [hB, h1, h2, h3, hd3, chunkList_nil]
    simp [List.length_take, hd1, hd2, h]
  · intro env nm hdry hok
    exact deliver_allOk env nm hdry hok 0 (chunkList BATCH_SIZE l)

/-- C4 witness: the 12000-record stream `replicate 12000 0`. -/
theorem chunkList_12000_witness :
    (List.replicate 12000 (0 : Nat)).length = 12000 ∧
    (chunkList BATCH_SIZE (List.replicate 12000 (0 : Nat))).map List.length =
      [5000, 5000, 2000] :=
  ⟨by simp only [List.length_replicate],
    (chunkList_12000 (List.replicate 12000 0) (by simp only [List.length_replicate])).1⟩

/-! ## C5 -/

def c5EntryA : FileEntry := { name := "a", isFile := true, mtime := some 10 }

def c5EntryB : FileEntry := { name := "b", isFile := true, mtime := some 10 }

/-- Environment listing files "b" then "a", both with mtime 10. -/
def c5Env : Env Nat Nat where
  listing := fun _ => [c5EntryB, c5EntryA]
  loadMetadata := fun _ _ => Except.ok 0
  parseFile := fun _ _ _ => []
  writeOk := fun _ _ => true
  dryRun := false

def c5Src : SourceConfig :=
  { name := "s5", subdir := "d", pattern := none, metadataPath := "m" }

/-- C5 counterexample: two candidates with equal mtime 10, listed by the
directory as "b" then "a": the processing order keeps the listing order
["b", "a"] — not the path-ascending order ["a", "b"] that "ties broken
by path" requires; `sorted(key=mtime)` is stable and does not consult
the path. -/
theorem sortedCandidates_tie_not_path_order :
    sortedCandidatesOf c5Env [] c5Src = [(c5EntryB, 10), (c5EntryA, 10)] ∧
    (sortedCandidatesOf c5Env [] c5Src).map (fun c => c.1.name) = ["b", "a"] ∧
    ["b", "a"] ≠ ["a", "b"] := by
  refine ⟨by decide, by decide, by decide⟩

/-- C5 amended: for every source, the candidate files are processed
(`parse_file` invoked, results concatenated into one stream) sorted
ascending by modification time; when two candidates have equal
modification times their relative order is the directory listing order
(Python's `sorted` is stable on the scan order), not the path order. -/
theorem sortedCandidates_order (env : Env R M) (st : Status) (s : SourceConfig)
    (md : M) :
    ((sortedCandidatesOf env st s).map (fun c => c.2)).Pairwise (· ≤ ·) ∧
    (∀ m : Nat, (sortedCandidatesOf env st s).filter (fun c => c.2 == m) =
      (candidateList (env.listing s.subdir) s.pattern
        (getWatermark st s.name)).filter (fun c => c.2 == m)) ∧
    recordsOf env st s md =
      (sortedCandidatesOf env st s).flatMap
        (fun c => env.parseFile c.1.name s.name md) := by
  refine ⟨List.pairwise_map.mpr (sortByMtime_pairwise _), ?_, rfl⟩
  intro m
  exact sortByMtime_filter _ m

/-! ## C6 -/

/-- Environment whose `load_metadata` raises for every source. -/
def c6Env : Env Nat Nat where
  listing := fun _ => [{ name := "f", isFile := true, mtime := some 5 }]
  loadMetadata := fun _ _ => Except.error ()
  parseFile := fun _ _ _ => [0]
  writeOk := fun _ _ => true
  dryRun := false

def c6SrcA : SourceConfig :=
  { name := "sa", subdir := "d", pattern := none, metadataPath := "m" }

def c6SrcB : SourceConfig :=
  { name := "sb", subdir := "d", pattern := none, metadataPath := "m" }

/-- C6 counterexample: `load_metadata` raises for the first source and the
run aborts right there: the error propagates out of `import_files`, and
the second configured source is never processed (its `loadMeta` event
never happens) — refuting "the run is not aborted: import_files proceeds
to process the remaining configured sources". -/
theorem importFiles_metaErr_counterexample :
    (importFiles c6Env [c6SrcA, c6SrcB] []).2.2 =
      some (RunError.metadataError "sa") ∧
    (importFiles c6Env [c6SrcA, c6SrcB] []).1 = [Event.loadMeta "sa"] ∧
    Event.loadMeta "sb" ∉ (importFiles c6Env [c6SrcA, c6SrcB] []).1 := by
  refine ⟨by decide, by decide, by decide⟩

/-- C6 amended: if `load_metadata` raises for some source, that source is
aborted before any scan, delivery or watermark update — and so is the
whole run: the exception propagates out of `import_files`, the status
table is returned unchanged, and no remaining source is processed (the
outcome does not depend on the sources listed after the failing one). -/
theorem importFiles_metaErr_aborts_run (env : Env R M) (st : Status)
    (s : SourceConfig) (rest : List SourceConfig) (e : Unit)
    (hmeta : env.loadMetadata s.metadataPath s.name = Except.error e) :
    importFiles env (s :: rest) st =
      ([Event.loadMeta s.name], st, some (RunError.metadataError s.name)) :=
  importFiles_cons_err env s rest st _ st _ (processSource_metaErr env st s e hmeta)

/-- C6 amended witness: concrete failing metadata load with a second
source configured. -/
theorem importFiles_metaErr_aborts_run_witness :
    c6Env.loadMetadata c6SrcA.metadataPath c6SrcA.name = Except.error () ∧
    importFiles c6Env [c6SrcA, c6SrcB] [] =
      ([Event.loadMeta "sa"], [], some (RunError.metadataError "sa")) :=
  ⟨rfl, importFiles_metaErr_aborts_run c6Env [] c6SrcA [c6SrcB] () rfl⟩

/-! ## C7 -/

/-- C7: a directory entry present at listing time whose mtime cannot be
obtained (vanished before `stat`) never raises: it is excluded from the
candidate set — the scan is exactly the scan of the listing without that
entry — and every produced candidate had its mtime read successfully. -/
theorem candidateList_vanished_excluded (l1 l2 : List FileEntry) (e : FileEntry)
    (pat : Option (String → Bool)) (cutoff : Nat) (h : e.mtime = none) :
    candidateList (l1 ++ e :: l2) pat cutoff = candidateList (l1 ++ l2) pat cutoff ∧
    (∀ c ∈ candidateList (l1 ++ e :: l2) pat cutoff, c.1 ≠ e) ∧
    (∀ listing : List FileEntry, ∀ c ∈ candidateList listing pat cutoff,
      get_mtime c.1 = some c.2) := by
  refine ⟨candidateList_vanished l1 l2 e pat cutoff h, ?_, ?_⟩
  · intro c hc hce
    have hmt := (mem_candidateList hc).2.2.1
    rw [hce] at hmt
    simp only [get_mtime, h] at hmt
    exact Option.noConfusion hmt
  · intro listing c hc
    exact (mem_candidateList hc).2.2.1

def c7Vanished : FileEntry := { name := "tmp", isFile := true, mtime := none }

def c7Kept : FileEntry := { name := "keep", isFile := true, mtime := some 9 }

/-- C7 witness: a vanished entry between two listings. -/
theorem candidateList_vanished_excluded_witness :
    c7Vanished.mtime = none ∧
    candidateList [c7Kept, c7Vanished] none 0 = candidateList [c7Kept] none 0 ∧
    candidateList [c7Kept, c7Vanished] none 0 = [(c7Kept, 9)] :=
  ⟨rfl, (candidateList_vanished_excluded [c7Kept] [] c7Vanished none 0 rfl).1,
    by decide⟩

/-! ## C8 -/

theorem processSource_dry (env : Env R M) (hdry : env.dryRun = true) (st : Status)
    (s : SourceConfig) :
    (processSource env st s).2.1 = st ∧
    (∀ n j b, Event.writeCall n j b ∉ (processSource env st s).1) := by
  cases hmeta : env.loadMetadata s.metadataPath s.name with
  | error e =>
      rw [processSource_metaErr env st s e hmeta]
      exact ⟨rfl, by intro n j b hmem; simp at hmem⟩
  | ok md =>
      by_cases hc : sortedCandidatesOf env st s = []
      · rw [processSource_emptyScan env st s md hmeta hc]
        exact ⟨rfl, by intro n j b hmem; simp at hmem⟩
      · have hdel := deliver_dry env s.name hdry 0 (batchesOf env st s md)
        have hps2 : processSource env st s =
            (Event.loadMeta s.name ::
              ((batchesOf env st s md).enumFrom 0).map
                (fun p => Event.formBatch s.name p.1 p.2), st, none) := by
          rw [processSource_deliverOk env st s md hmeta hc (by rw [hdel]), hdel]
          simp [hdry]
        rw [hps2]
        refine ⟨rfl, ?_⟩
        intro n j b hmem
        simp only [List.mem_cons] at hmem
        rcases hmem with heq | hmem2
        · exact absurd heq (by simp)
        · obtain ⟨p, hp, hpe⟩ := List.mem_map.mp hmem2
          exact absurd hpe (by simp)

/-- C8: with `dry_run=True`, every run leaves the status file unchanged
and issues no remote write call; and for every source whose metadata
binds, the batches are still formed from the extracted record stream —
the source's trace is one `loadMeta` followed by one `formBatch` event
per batch of `batchesOf`, with no `writeCall` and no error. -/
theorem importFiles_dryRun (env : Env R M) (hdry : env.dryRun = true) :
    (∀ (srcs : List SourceConfig) (st : Status),
      (importFiles env srcs st).2.1 = st) ∧
    (∀ (srcs : List SourceConfig) (st : Status) (n : String) (j : Nat) (b : List R),
      Event.writeCall n j b ∉ (importFiles env srcs st).1) ∧
    (∀ (st : Status) (s : SourceConfig) (md : M),
      env.loadMetadata s.metadataPath s.name = Except.ok md →
      processSource env st s =
        (Event.loadMeta s.name ::
          ((batchesOf env st s md).enumFrom 0).map
            (fun p => Event.formBatch s.name p.1 p.2),
          st, none)) := by
  have hsts : ∀ (srcs : List SourceConfig) (st : Status),
      (importFiles env srcs st).2.1 = st ∧
      (∀ n j b, Event.writeCall n j b ∉ (importFiles env srcs st).1) := by
    intro srcs
    induction srcs with
    | nil =>
        intro st
        exact ⟨rfl, by intro n j b hmem; simp [importFiles_nil] at hmem⟩
    | cons s rest ih =>
        intro st
        obtain ⟨hst, hnw⟩ := processSource_dry env hdry st s
        rcases hps : processSource env st s with ⟨tr, st2, err⟩
        rw [hps] at hst hnw
        have hst2 : st2 = st := hst
        subst hst2
        cases err with
        | some e =>
            rw [importFiles_cons_err env s rest st2 tr st2 e hps]
            exact ⟨rfl, fun n j b hmem => hnw n j b hmem⟩
        | none =>
            rw [importFiles_cons_ok env s rest st2 tr st2 hps]
            obtain ⟨ihst, ihnw⟩ := ih st2
            refine ⟨ihst, ?_⟩
            intro n j b hmem
            rcases List.mem_append.mp hmem with h1 | h2
            · exact hnw n j b h1
            · exact ihnw n j b h2
  refine ⟨fun srcs st => (hsts srcs st).1,
    fun srcs st n j b => (hsts srcs st).2 n j b, ?_⟩
  intro st s md hmeta
  by_cases hc : sortedCandidatesOf env st s = []
  · have hb : batchesOf env st s md = [] := by
      simp [batchesOf, recordsOf, hc, chunkList_nil]
    rw [processSource_emptyScan env st s md hmeta hc, hb]
    rfl
  · have hdel := deliver_dry env s.name hdry 0 (batchesOf env st s md)
    rw [processSource_deliverOk env st s md hmeta hc (by rw [hdel]), hdel]
    simp [hdry]

/-- Dry-run environment with one file and two records. -/
def c8Env : Env Nat Nat where
  listing := fun _ => [{ name := "h", isFile := true, mtime := some 3 }]
  loadMetadata := fun _ _ => Except.ok 0
  parseFile := fun _ _ _ => [5, 6]
  writeOk := fun _ _ => false
  dryRun := true

def c8Src : SourceConfig :=
  { name := "s8", subdir := "d", pattern := none, metadataPath := "m" }

/-- C8 witness: a dry run over a source with candidates leaves the status
file unchanged, and the source's trace is the loadMeta plus the formed
batches, with no write. -/
theorem importFiles_dryRun_witness :
    c8Env.dryRun = true ∧
    (importFiles c8Env [c8Src] [("s8", some 1)]).2.1 = [("s8", some 1)] ∧
    processSource c8Env [] c8Src =
      (Event.loadMeta "s8" ::
        ((batchesOf c8Env [] c8Src 0).enumFrom 0).map
          (fun p => Event.formBatch "s8" p.1 p.2), [], none) := by
  have H := importFiles_dryRun c8Env rfl
  exact ⟨rfl, H.1 [c8Src] [("s8", some 1)], H.2.2 [] c8Src 0 rfl⟩

/-! ## C9 -/

/-- C9: on first use, an absent status file is created holding the empty
table rather than erroring — the run on an absent file is exactly the run
on the empty table — and an absent per-source entry (no key, or an entry
without `last_mtime`) is read as the epoch. -/
theorem importFilesRun_absentStatusFile (env : Env R M) (srcs : List SourceConfig) :
    importFilesRun env srcs none = importFilesRun env srcs (some []) ∧
    (∀ n, getWatermark [] n = 0) ∧
    (∀ (st : Status) (n : String), st.lookup n = none → getWatermark st n = 0) ∧
    (∀ (st : Status) (n : String), st.lookup n = some none →
      getWatermark st n = 0) := by
  refine ⟨rfl, fun n => rfl, ?_, ?_⟩
  · intro st n h
    simp [getWatermark, h]
  · intro st n h
    simp [getWatermark, h]

/-- Environment used only to instantiate the C9 witness. -/
def c9Env : Env Nat Nat where
  listing := fun _ => []
  loadMetadata := fun _ _ => Except.ok 0
  parseFile := fun _ _ _ => []
  writeOk := fun _ _ => true
  dryRun := false

/-- C9 witness: absent file equals empty table; a missing key and a key
without `last_mtime` both read as the epoch 0. -/
theorem importFilesRun_absentStatusFile_witness :
    importFilesRun c9Env [] none = importFilesRun c9Env [] (some []) ∧
    getWatermark [("x", some 3)] "y" = 0 ∧
    getWatermark [("z", none)] "z" = 0 :=
  ⟨(importFilesRun_absentStatusFile c9Env []).1,
    (importFilesRun_absentStatusFile c9Env []).2.2.1 [("x", some 3)] "y" (by decide),
    (importFilesRun_absentStatusFile c9Env []).2.2.2 [("z", none)] "z" (by decide)⟩

/-! ## C10 -/

/-- C10: a source with at least one candidate whose extraction yields
zero records delivers no batch at all (the source's trace is just the
`loadMeta` event — in particular no non-empty batch reaches the remote
write), yet, not being in dry run, its watermark is still advanced to the
greatest modification time among the candidates. -/
theorem processSource_emptyRecords_commitsWatermark (env : Env R M) (st : Status)
    (s : SourceConfig) (md : M)
    (hmeta : env.loadMetadata s.metadataPath s.name = Except.ok md)
    (hne : sortedCandidatesOf env st s ≠ [])
    (hrec : recordsOf env st s md = [])
    (hdry : env.dryRun = false) :
    processSource env st s =
      ([Event.loadMeta s.name],
        setStatus st s.name (newWatermark (sortedCandidatesOf env st s)), none) ∧
    getWatermark (processSource env st s).2.1 s.name =
      newWatermark (sortedCandidatesOf env st s) ∧
    (∀ c ∈ sortedCandidatesOf env st s,
      c.2 ≤ newWatermark (sortedCandidatesOf env st s)) ∧
    newWatermark (sortedCandidatesOf env st s) ∈
      (sortedCandidatesOf env st s).map (fun c => c.2) := by
  have hb : batchesOf env st s md = [] := by
    simp [batchesOf, hrec, chunkList_nil]
  have hdel : deliver env s.name 0 (batchesOf env st s md) = ([], none) := by
    rw [hb]
    rfl
  have hps := processSource_deliverOk env st s md hmeta hne (by rw [hdel])
  rw [hdel] at hps
  simp only [hdry, Bool.false_eq_true, if_false] at hps
  refine ⟨hps, ?_, ?_, newWatermark_mem hne⟩
  · rw [hps]
    exact getWatermark_setStatus_self st s.name _
  · intro c hc
    exact newWatermark_ge (sortByMtime_pairwise _) c hc

/-- Environment with two candidate files (mtimes 8 and 4) whose parser
extracts nothing. -/
def c10Env : Env Nat Nat where
  listing := fun _ => [{ name := "e1", isFile := true, mtime := some 8 },
    { name := "e2", isFile := true, mtime := some 4 }]
  loadMetadata := fun _ _ => Except.ok 0
  parseFile := fun _ _ _ => []
  writeOk := fun _ _ => true
  dryRun := false

def c10Src : SourceConfig :=
  { name := "sx", subdir := "d", pattern := none, metadataPath := "m" }

/-- C10 witness: two candidates, empty extraction; the watermark for "sx"
is committed to 8, the greatest candidate mtime. -/
theorem processSource_emptyRecords_commitsWatermark_witness :
    sortedCandidatesOf c10Env [] c10Src ≠ [] ∧
    recordsOf c10Env [] c10Src 0 = [] ∧
    processSource c10Env [] c10Src =
      ([Event.loadMeta "sx"], [("sx", some 8)], none) := by
  have H := processSource_emptyRecords_commitsWatermark c10Env [] c10Src 0 rfl
    (by decide) rfl rfl
  refine ⟨by decide, rfl, ?_⟩
  rw [H.1]
  rfl
